import Mathlib

/-!
Shallow embedding of the table-resize subsystem of the prosemirror-tables
repository (files src/src/tableNodes.ts and the schema helper module), together
with proofs about the redistribution algorithm, the resize state machine, the
edge hit tests and the decoration placement.

Positions are ProseMirror positions relative to the table start: a row
contributes one opening token, then its cells (each of node size
content + 2), then one closing token.  The grid map (the TableMap class is not
part of the sources; it is modelled from the specification, section 4.1) maps
every grid slot to the relative position of the cell occupying it.
-/

namespace ProseMirrorTables

/-- Cell attributes as in the schema: colspan, rowspan, and an optional
list of per-column pixel widths (the data model of tableNodes.ts). -/
structure CellAttrs where
  colspan : Nat
  rowspan : Nat
  colwidth : Option (List Int)
  deriving Repr, DecidableEq

/-- A table cell: its attributes plus the size of its content, so that the
ProseMirror node size (content + 2) and hence document positions are defined. -/
structure Cell where
  attrs : CellAttrs
  content : Nat
  deriving Repr, DecidableEq

/-- ProseMirror node size of a cell node. -/
def Cell.nodeSize (c : Cell) : Nat := c.content + 2

/-- A table is a list of rows, each row a list of cells. -/
abbrev Table := List (List Cell)

/-- ProseMirror node size of a row node: its cells plus two boundary tokens. -/
def rowSize (row : List Cell) : Nat := (row.map Cell.nodeSize).sum + 2

/-- Cells of one row paired with their positions, starting at offset `off`. -/
def rowCellsWithPos (off : Nat) : List Cell → List (Nat × Cell)
  | [] => []
  | c :: cs => (off, c) :: rowCellsWithPos (off + c.nodeSize) cs

/-- Cells of a list of rows paired with their positions; the offset is the
position of the first row's opening token. -/
def tableCellsWithPos (off : Nat) : Table → List (Nat × Cell)
  | [] => []
  | row :: rest =>
      rowCellsWithPos (off + 1) row ++ tableCellsWithPos (off + rowSize row) rest

/-- Every cell of a table with its position relative to the table start. -/
def Table.cellsWithPos (t : Table) : List (Nat × Cell) := tableCellsWithPos 0 t

/-- The cell node starting exactly at relative position `p`
(the `table.nodeAt(pos)` query of the host framework, restricted to cells). -/
def Table.nodeAt (t : Table) (p : Nat) : Option Cell :=
  (t.cellsWithPos.find? (fun x => x.1 == p)).map Prod.snd

/-! ## The grid map

Modelled from the spec: the TableMap class (grid-derivation algorithm,
spec section 4.1) is not among the source files; only its callers are.
Per the spec, rows are walked top to bottom while a per-column counter
records how many further rows are consumed by a vertical span; each cell
advances to the next free column and fills `colspan × rowspan` slots, spans
being clamped to the remaining height and zero spans normalized to one. -/

/-- Fill one grid row.  `pending` holds, per grid column from the current one
onward, how many further rows (including the current one) that column is
covered by an earlier vertical span, together with the spanning cell's
position.  `cells` lists the row's own cells as (position, colspan, rowspan)
with spans already normalized/clamped.  Returns the row's slots (each the
position of the occupying cell) and the pending state for the next row. -/
def fillRowAux : Nat → List (Nat × Nat) → List (Nat × Nat × Nat) → List Nat × List (Nat × Nat)
  | 0, _, _ => ([], [])
  | fuel + 1, (Nat.succ cnt, opos) :: pendRest, cells =>
      let res := fillRowAux fuel pendRest cells
      (opos :: res.1, (cnt, opos) :: res.2)
  | fuel + 1, (0, _) :: pendRest, (pos, cs, rs) :: cells =>
      let res := fillRowAux fuel (pendRest.drop (cs - 1)) cells
      (List.replicate cs pos ++ res.1, List.replicate cs (rs - 1, pos) ++ res.2)
  | fuel + 1, [], (pos, cs, rs) :: cells =>
      let res := fillRowAux fuel [] cells
      (List.replicate cs pos ++ res.1, List.replicate cs (rs - 1, pos) ++ res.2)
  | _ + 1, _, [] => ([], [])

/-- Fill one grid row; the fuel bounds the recursion depth (every step
consumes a pending entry or a cell, so their joint count suffices). -/
def fillRow (pending : List (Nat × Nat)) (cells : List (Nat × Nat × Nat)) :
    List Nat × List (Nat × Nat) :=
  fillRowAux (pending.length + cells.length) pending cells

/-- Build the slot lists of all rows, threading the pending spans. -/
def buildRows : List (Nat × Nat) → List (List (Nat × Nat × Nat)) → List (List Nat)
  | _, [] => []
  | pending, row :: rest =>
      let res := fillRow pending row
      res.1 :: buildRows res.2 rest

/-- The (position, colspan, rowspan) triples of one row, spans normalized to
at least one and rowspans clamped to the remaining height. -/
def rowEntries (off heightLeft : Nat) : List Cell → List (Nat × Nat × Nat)
  | [] => []
  | c :: cs =>
      (off, max c.attrs.colspan 1, min (max c.attrs.rowspan 1) heightLeft) ::
        rowEntries (off + c.nodeSize) heightLeft cs

/-- The entry lists of all rows of a table. -/
def rowsEntries (off heightLeft : Nat) : Table → List (List (Nat × Nat × Nat))
  | [] => []
  | row :: rest =>
      rowEntries (off + 1) heightLeft row ::
        rowsEntries (off + rowSize row) (heightLeft - 1) rest

/-- The dense grid: `map` has `width * height` entries in row-major order,
each the relative position of the cell occupying that slot. -/
structure TableMap where
  width : Nat
  height : Nat
  map : List Nat
  deriving Repr, DecidableEq

/-- Modelled from the spec: grid derivation (TableMap construction).  Rows
shorter than the widest row are padded with position 0 (a position no cell
occupies), realizing the clamping policy for malformed span layouts. -/
def TableMap.build (t : Table) : TableMap :=
  let slotRows := buildRows [] (rowsEntries 0 t.length t)
  let width := (slotRows.map List.length).foldr Nat.max 0
  { width := width
    height := t.length
    map := (slotRows.map (fun s => s ++ List.replicate (width - s.length) 0)).flatten }

/-- Index of the first occurrence of `p`, or the length when absent. -/
def firstIndex (l : List Nat) (p : Nat) : Nat :=
  match l with
  | [] => 0
  | a :: rest => if a = p then 0 else firstIndex rest p + 1

/-- Modelled from the spec: number of grid columns strictly left of the
cell's top-left slot (TableMap.colCount). -/
def TableMap.colCount (m : TableMap) (pos : Nat) : Nat :=
  firstIndex m.map pos % m.width

/-- Modelled from the spec: number of grid rows strictly above the cell's
top-left slot (TableMap.rowCount). -/
def TableMap.rowCount (m : TableMap) (pos : Nat) : Nat :=
  firstIndex m.map pos / m.width

/-- The two resize axes of the plugin; the TypeScript `typePositionCell`
union 'row' | 'col' | undefined is modelled as `Option Axis`. -/
inductive Axis where
  | col
  | row
  deriving Repr, DecidableEq

/-! ## Width redistribution (updateColumnWidth, tableNodes.ts 457-484) -/

/-- The `zeroes` helper of tableNodes.ts: a width list of `n` zero entries. -/
def zeroes (n : Nat) : List Int := List.replicate n 0

/-- Body of one iteration of the updateColumnWidth loop, after the
row-span-continuation check: look up the cell at `pos`, compute its local
span index for grid column `col`, skip when the stored width there already
equals `width`, otherwise produce the updated attributes (stored sequence
copied, or a fresh zero sequence of length colspan, with only the entry at
the local index overwritten). -/
def newAttrsAt (t : Table) (m : TableMap) (col : Nat) (width : Int) (pos : Nat) :
    Option CellAttrs :=
  match t.nodeAt pos with
  | none => none
  | some c =>
      let attrs := c.attrs
      let index := if attrs.colspan = 1 then 0 else col - m.colCount pos
      if attrs.colwidth.bind (fun l => l.get? index) = some width then none
      else
        some { attrs with
          colwidth := some ((attrs.colwidth.getD (zeroes attrs.colspan)).set index width) }

/-- One iteration of the updateColumnWidth row loop: skip slots that continue
a row-spanning cell from the previous grid row, otherwise update the cell
occupying slot (row, col). -/
def updateOneRow (t : Table) (m : TableMap) (col : Nat) (width : Int) (row : Nat) :
    Option (Nat × CellAttrs) :=
  let mapIndex := row * m.width + col
  if row ≠ 0 ∧ m.map.getD mapIndex 0 = m.map.getD (mapIndex - m.width) 0 then none
  else
    (newAttrsAt t m col width (m.map.getD mapIndex 0)).map
      (fun a => (m.map.getD mapIndex 0, a))

/-- The grid column targeted by a resize at handle cell `cellRel`: the cell's
starting column plus its colspan minus one (its trailing column). -/
def targetCol (t : Table) (cellRel : Nat) : Nat :=
  match t.nodeAt cellRel with
  | some c => (TableMap.build t).colCount cellRel + c.attrs.colspan - 1
  | none => 0

/-- The updateColumnWidth function of tableNodes.ts as the list of
(position, attributes) node-markup updates it dispatches (empty list means
the transaction is not dispatched, `tr.docChanged` being false). -/
def updateColumnWidth (t : Table) (cellRel : Nat) (width : Int) :
    List (Nat × CellAttrs) :=
  match t.nodeAt cellRel with
  | none => []
  | some c =>
      let m := TableMap.build t
      let col := m.colCount cellRel + c.attrs.colspan - 1
      (List.range m.height).filterMap (updateOneRow t m col width)

/-- First update recorded for position `p`, if any. -/
def findUpdate (us : List (Nat × CellAttrs)) (p : Nat) : Option CellAttrs :=
  match us with
  | [] => none
  | (q, a) :: rest => if q = p then some a else findUpdate rest p

/-- Effect of one setNodeMarkup on the cell at position `p` (content kept). -/
def applyCell (us : List (Nat × CellAttrs)) (p : Nat) (c : Cell) : Cell :=
  match findUpdate us p with
  | some a => { c with attrs := a }
  | none => c

/-- Apply the updates along one row's cells, tracking positions. -/
def applyRow (us : List (Nat × CellAttrs)) (off : Nat) : List Cell → List Cell
  | [] => []
  | c :: cs => applyCell us off c :: applyRow us (off + c.nodeSize) cs

/-- Apply the updates along the rows of a table. -/
def applyRows (us : List (Nat × CellAttrs)) (off : Nat) : Table → Table
  | [] => []
  | row :: rest =>
      applyRow us (off + 1) row :: applyRows us (off + rowSize row) rest

/-- The document after dispatching a transaction that sets the node markup of
each listed position to the listed attributes. -/
def applyUpdates (t : Table) (us : List (Nat × CellAttrs)) : Table :=
  applyRows us 0 t

/-! ## Decidable well-formedness of the derived grid -/

/-- Every slot of grid column `col` holds a cell of the table whose column
range (starting column to starting column plus colspan) contains `col`. -/
def colValidB (t : Table) (col : Nat) : Bool :=
  let m := TableMap.build t
  (List.range m.height).all fun r =>
    let pos := m.map.getD (r * m.width + col) 0
    match t.nodeAt pos with
    | none => false
    | some c => decide (m.colCount pos ≤ col ∧ col < m.colCount pos + c.attrs.colspan)

/-- The colwidth invariant of the data model: every stored width sequence has
length exactly the cell's colspan. -/
def colwidthInvB (t : Table) : Bool :=
  t.cellsWithPos.all fun pc =>
    match pc.2.attrs.colwidth with
    | none => true
    | some l => l.length == pc.2.attrs.colspan

/-- The cell at position `p` intersects grid column `col`. -/
def cellCovers (t : Table) (p : Nat) (c : Cell) (col : Nat) : Prop :=
  (TableMap.build t).colCount p ≤ col ∧
    col < (TableMap.build t).colCount p + c.attrs.colspan

/-- Local span index of grid column `col` inside the cell at position `p`:
zero when colspan is one, else `col` minus the cell's starting column
(exactly the index computed by updateColumnWidth). -/
def localIndex (t : Table) (c : Cell) (p : Nat) (col : Nat) : Nat :=
  if c.attrs.colspan = 1 then 0 else col - (TableMap.build t).colCount p

/-! ## Decoration placement (handleDecorations, tableNodes.ts 535-587) -/

/-- Emission condition of the column branch of handleDecorations at grid row
`row` for boundary column `col`: the slot left of the boundary differs from
the slot right of it (or the boundary is the grid's right edge), and differs
from the slot above it (or the row is the top row). -/
def colDecorationCond (m : TableMap) (col row : Nat) : Bool :=
  let index := col + row * m.width - 1
  (col == m.width || m.map.getD index 0 != m.map.getD (index + 1) 0) &&
    (row == 0 || m.map.getD index 0 != m.map.getD (index - m.width) 0)

/-- Emission condition of the row branch of handleDecorations at grid column
`col` for boundary row `row` (the symmetric test). -/
def rowDecorationCond (m : TableMap) (row col : Nat) : Bool :=
  let index := (row - 1) * m.width + col
  (row == m.height || m.map.getD index 0 != m.map.getD (index + m.width) 0) &&
    (col == 0 || m.map.getD index 0 != m.map.getD (index - 1) 0)

/-- Grid rows at which the column branch of handleDecorations emits a marker,
for the boundary column right after the active cell's span. -/
def decorationColRows (t : Table) (cellRel : Nat) : List Nat :=
  match t.nodeAt cellRel with
  | none => []
  | some c =>
      let m := TableMap.build t
      let col := m.colCount cellRel + c.attrs.colspan
      (List.range m.height).filter (colDecorationCond m col)

/-- Grid columns at which the row branch of handleDecorations emits a marker,
for the boundary row right after the active cell's span. -/
def decorationRowCols (t : Table) (cellRel : Nat) : List Nat :=
  match t.nodeAt cellRel with
  | none => []
  | some c =>
      let m := TableMap.build t
      let row := m.rowCount cellRel + c.attrs.rowspan
      (List.range m.width).filter (rowDecorationCond m row)

/-- Originating cell (slot value) owning the vertical border segment tested at
grid row `row` on the column boundary after the active cell's span. -/
def colMarkerOwner (t : Table) (cellRel row : Nat) : Nat :=
  match t.nodeAt cellRel with
  | none => 0
  | some c =>
      let m := TableMap.build t
      let col := m.colCount cellRel + c.attrs.colspan
      m.map.getD (col + row * m.width - 1) 0

/-- Originating cell (slot value) owning the horizontal border segment tested
at grid column `col` on the row boundary after the active cell's span. -/
def rowMarkerOwner (t : Table) (cellRel col : Nat) : Nat :=
  match t.nodeAt cellRel with
  | none => 0
  | some c =>
      let m := TableMap.build t
      let row := m.rowCount cellRel + c.attrs.rowspan
      m.map.getD ((row - 1) * m.width + col) 0

/-- The handleDecorations function as the list of widget positions it
creates (relative to the table start): one widget per emitted marker,
anchored at the trailing edge of the owning cell; undefined (`none`) when the
active axis is neither the column nor the row axis. -/
def handleDecorations (t : Table) (cellRel : Nat) (position : Option Axis) :
    Option (List Nat) :=
  let widget := fun (cellPos : Nat) =>
    match t.nodeAt cellPos with
    | some c => cellPos + c.nodeSize - 1
    | none => 0
  match position with
  | some Axis.col =>
      some ((decorationColRows t cellRel).map fun row =>
        widget (colMarkerOwner t cellRel row))
  | some Axis.row =>
      some ((decorationRowCols t cellRel).map fun col =>
        widget (rowMarkerOwner t cellRel col))
  | none => none

/-! ## Resize state machine (ResizeState, tableNodes.ts 186-217) -/

/-- Drag anchor: pointer coordinate and cell dimension at press time. -/
structure Dragging where
  startPosition : Int
  startDimension : Int
  deriving Repr, DecidableEq

/-- Plugin state: active handle position (−1 when none), drag anchor
(`none` models the JavaScript `false`), and the active axis. -/
structure ResizeState where
  activeHandle : Int
  dragging : Option Dragging
  position : Option Axis
  deriving Repr, DecidableEq

/-- A resize-plugin meta action; `setDragging` distinguishes absent
(outer `none`), null (`some none`) and a value (`some (some d)`). -/
structure MetaAction where
  setHandle : Option Int
  setDragging : Option (Option Dragging)
  setPosition : Option Axis

/-- The document-transaction facts ResizeState.apply consumes: the plugin
meta action, whether the document changed, position mapping with bias −1,
and whether a mapped position still points directly at a cell. -/
structure Transaction where
  meta : Option MetaAction
  docChanged : Bool
  mapPos : Int → Int
  pointsAtCellAfter : Int → Bool

/-- ResizeState.apply: meta actions take precedence; otherwise, on a document
change with an active handle, the handle is mapped through the change,
cleared to −1 when it no longer points at a cell, and the axis is dropped. -/
def ResizeState.apply (s : ResizeState) (tr : Transaction) : ResizeState :=
  let onDocChange : ResizeState :=
    if s.activeHandle > -1 ∧ tr.docChanged then
      let handle := tr.mapPos s.activeHandle
      let handle := if tr.pointsAtCellAfter handle then handle else -1
      ⟨handle, s.dragging, none⟩
    else s
  match tr.meta with
  | none => onDocChange
  | some action =>
      match action.setHandle with
      | some h => ⟨h, none, action.setPosition⟩
      | none =>
          match action.setDragging with
          | some d => ⟨s.activeHandle, d, action.setPosition⟩
          | none => onDocChange

/-! ## Pointer handlers (tableNodes.ts 219-269 and 431-442) -/

/-- A mouse event's client coordinates. -/
structure MouseEvt where
  clientX : Int
  clientY : Int
  deriving Repr, DecidableEq

/-- The four cell edges tested by handleMouseMove. -/
inductive Side where
  | left
  | right
  | top
  | bottom
  deriving Repr, DecidableEq

/-- The ordered edge tests of handleMouseMove over the hovered cell's
bounding rectangle: left then right (column axis, threshold tests), then top
then bottom (row axis, flipped-sign complement tests). -/
def edgeTests (x y left right top bottom minSize : Int) : Option (Axis × Side) :=
  if x - left ≤ minSize then some (Axis.col, Side.left)
  else if right - x ≤ minSize then some (Axis.col, Side.right)
  else if top - y ≥ -minSize then some (Axis.row, Side.top)
  else if y - bottom ≥ -minSize then some (Axis.row, Side.bottom)
  else none

/-- Tail of handleMouseMove once an edge cell has been resolved: no update
when dragging, when the resolved cell equals the current handle, or when
`lastColumnResizable` is false and the resolved cell's span ends at the
grid's last column; otherwise the (cell, axis) pair passed to updateHandle. -/
def handleMouseMoveResult (activeHandle : Int) (dragging : Bool) (cell : Int)
    (positionCell : Option Axis) (lastColumnResizable : Bool) (t : Table)
    (tableStart : Int) : Option (Int × Option Axis) :=
  if dragging then none
  else if cell = activeHandle then none
  else
    let suppressed : Bool :=
      if lastColumnResizable then false
      else if cell = -1 then false
      else
        match t.nodeAt (cell - tableStart).toNat with
        | some c =>
            let m := TableMap.build t
            (m.colCount (cell - tableStart).toNat + c.attrs.colspan - 1)
              == m.width - 1
        | none => false
    if suppressed then none else some (cell, positionCell)

/-- Pointer coordinate along an axis: clientX on the column axis, clientY on
the row axis. -/
def coordAlong (axis : Axis) (e : MouseEvt) : Int :=
  match axis with
  | Axis.col => e.clientX
  | Axis.row => e.clientY

/-- The draggedDimension function of tableNodes.ts: the live preview
dimension while dragging. -/
def draggedDimension (position : Option Axis) (dragging : Dragging)
    (event : MouseEvt) (cellMin : Int) : Int :=
  let offset :=
    if position = some Axis.col then event.clientX - dragging.startPosition
    else event.clientY - dragging.startPosition
  max cellMin (dragging.startDimension + offset)

/-! ## DOM attribute parsing (schema module, getCellAttrs / getRowAttrs)

Attribute strings are embedded as their character lists, so that parsing is
computable by the kernel; `Str` abbreviates that representation. -/

/-- A DOM attribute string, as its list of characters. -/
abbrev Str := List Char

/-- Split a character string at every comma (the behaviour of
`split(',')` on the strings accepted by the digit-list pattern). -/
def splitOnComma (s : Str) : List Str :=
  match s with
  | [] => [[]]
  | c :: rest =>
      let res := splitOnComma rest
      if c = ',' then [] :: res
      else (c :: res.headD []) :: res.tail

/-- True when a string matches the pattern of one or more comma-separated
digit groups (the regular expression of getCellAttrs and getRowAttrs). -/
def widthsPatternOk (s : Str) : Bool :=
  (splitOnComma s).all fun part =>
    decide (part.length > 0) && part.all Char.isDigit

/-- Numeric value of a digit string. -/
def digitsVal (s : Str) : Nat :=
  s.foldl (fun acc c => acc * 10 + (c.toNat - '0'.toNat)) 0

/-- JavaScript `Number` on `attr || 1`: a missing or empty attribute yields
one; a decimal digit string yields its value; anything else is NaN,
modelled as `none`. -/
def jsNumAttr (a : Option Str) : Option Nat :=
  match a with
  | none => some 1
  | some s =>
      if s = [] then some 1
      else if s.all Char.isDigit then some (digitsVal s) else none

/-- The DOM attributes of a cell element that getCellAttrs reads. -/
structure DomCell where
  dataColwidth : Option Str
  colspanAttr : Option Str
  rowspanAttr : Option Str

/-- The attribute record getCellAttrs produces (span values `none` model
NaN results of JavaScript Number). -/
structure ParsedCellAttrs where
  colspan : Option Nat
  rowspan : Option Nat
  colwidth : Option (List Int)
  deriving Repr, DecidableEq

/-- The getCellAttrs function of the schema module: data-colwidth is split
into numbers only when it matches the digit-list pattern, and kept only when
its length equals the parsed colspan. -/
def getCellAttrs (dom : DomCell) : ParsedCellAttrs :=
  let widths : Option (List Int) :=
    match dom.dataColwidth with
    | some s =>
        if widthsPatternOk s then
          some ((splitOnComma s).map fun part => (digitsVal part : Int))
        else none
    | none => none
  let rowspan := jsNumAttr dom.rowspanAttr
  let colspan := jsNumAttr dom.colspanAttr
  { colspan := colspan
    rowspan := rowspan
    colwidth :=
      match widths, colspan with
      | some l, some n => if l.length = n then some l else none
      | _, _ => none }

/-- The DOM attributes of a row element that getRowAttrs reads. -/
structure DomRow where
  dataRowheight : Option Str

/-- The getRowAttrs function of the schema module: when data-rowheight
matches the digit-list pattern the attribute value is stored as the raw
string itself (it is not split into numbers); otherwise null. -/
def getRowAttrs (dom : DomRow) : Option Str :=
  match dom.dataRowheight with
  | some s => if widthsPatternOk s then some s else none
  | none => none

/-- The number sequence that parsing a digit-list string the way
getCellAttrs parses data-colwidth would produce. -/
def parsedHeightList (s : Str) : Option (List Int) :=
  if widthsPatternOk s then
    some ((splitOnComma s).map fun part => (digitsVal part : Int))
  else none

/-! ## Example tables -/

/-- A cell with given spans and stored widths and an empty paragraph as
content (node size four). -/
def mkCell (cs rs : Nat) (cw : Option (List Int)) : Cell := ⟨⟨cs, rs, cw⟩, 2⟩

/-- Two-row table: three unit cells (positions 1, 5, 9) over one cell
spanning all three columns (position 15) with stored widths 10, 20, 30. -/
def exTable : Table :=
  [[mkCell 1 1 none, mkCell 1 1 none, mkCell 1 1 none],
   [mkCell 3 1 (some [10, 20, 30])]]

/-- Three-by-three grid whose top-left cell (position 1) spans two columns
and two rows; the remaining cells are unit cells. -/
def exGrid : Table :=
  [[mkCell 2 2 none, mkCell 1 1 none],
   [mkCell 1 1 none],
   [mkCell 1 1 none, mkCell 1 1 none, mkCell 1 1 none]]

/-! ## Position and traversal lemmas -/

lemma rowCells_pos_lb {off : Nat} {cs : List Cell} {p : Nat} {c : Cell}
    (h : (p, c) ∈ rowCellsWithPos off cs) : off ≤ p := by
  induction cs generalizing off with
  | nil => simp [rowCellsWithPos] at h
  | cons c0 rest ih =>
      simp only [rowCellsWithPos, List.mem_cons] at h
      rcases h with h | h
      · have hp : p = off := by simpa using congrArg Prod.fst h
        omega
      · have := ih h
        omega

lemma rowCells_pos_ub {off : Nat} {cs : List Cell} {p : Nat} {c : Cell}
    (h : (p, c) ∈ rowCellsWithPos off cs) :
    p < off + (cs.map Cell.nodeSize).sum := by
  induction cs generalizing off with
  | nil => simp [rowCellsWithPos] at h
  | cons c0 rest ih =>
      simp only [rowCellsWithPos, List.mem_cons] at h
      simp only [List.map_cons, List.sum_cons]
      rcases h with h | h
      · have hp : p = off := by simpa using congrArg Prod.fst h
        have : 0 < c0.nodeSize := by simp [Cell.nodeSize]
        omega
      · have := ih h
        omega

lemma tableCells_pos_lb {off : Nat} {rows : Table} {p : Nat} {c : Cell}
    (h : (p, c) ∈ tableCellsWithPos off rows) : off + 1 ≤ p := by
  induction rows generalizing off with
  | nil => simp [tableCellsWithPos] at h
  | cons row rest ih =>
      simp only [tableCellsWithPos, List.mem_append] at h
      rcases h with h | h
      · have := rowCells_pos_lb h
        omega
      · have := ih h
        have : 2 ≤ rowSize row := by simp [rowSize]
        omega

lemma tableCells_pos_ub {off : Nat} {rows : Table} {p : Nat} {c : Cell}
    (h : (p, c) ∈ tableCellsWithPos off rows) :
    p < off + (rows.map rowSize).sum := by
  induction rows generalizing off with
  | nil => simp [tableCellsWithPos] at h
  | cons row rest ih =>
      simp only [tableCellsWithPos, List.mem_append] at h
      simp only [List.map_cons, List.sum_cons]
      rcases h with h | h
      · have := rowCells_pos_ub h
        have : rowSize row = (row.map Cell.nodeSize).sum + 2 := rfl
        omega
      · have := ih h
        omega

lemma rowCells_find?_eq {off : Nat} {cs : List Cell} {p : Nat} {c : Cell}
    (h : (p, c) ∈ rowCellsWithPos off cs) :
    (rowCellsWithPos off cs).find? (fun x => x.1 == p) = some (p, c) := by
  induction cs generalizing off with
  | nil => simp [rowCellsWithPos] at h
  | cons c0 rest ih =>
      simp only [rowCellsWithPos, List.mem_cons] at h ⊢
      by_cases hp : off = p
      · subst hp
        rcases h with h | h
        · rw [List.find?_cons_of_pos _ (by simp)]
          exact congrArg some h.symm
        · have := rowCells_pos_lb h
          have : 0 < c0.nodeSize := by simp [Cell.nodeSize]
          omega
      · rcases h with h | h
        · exact absurd (congrArg Prod.fst h).symm hp
        · rw [List.find?_cons_of_neg _ (by simpa using hp)]
          exact ih h

lemma tableCells_find?_eq {off : Nat} {rows : Table} {p : Nat} {c : Cell}
    (h : (p, c) ∈ tableCellsWithPos off rows) :
    (tableCellsWithPos off rows).find? (fun x => x.1 == p) = some (p, c) := by
  induction rows generalizing off with
  | nil => simp [tableCellsWithPos] at h
  | cons row rest ih =>
      simp only [tableCellsWithPos, List.mem_append] at h ⊢
      rw [List.find?_append]
      rcases h with h | h
      · rw [rowCells_find?_eq h]
        rfl
      · have hlb := tableCells_pos_lb h
        have hnone : (rowCellsWithPos (off + 1) row).find? (fun x => x.1 == p) = none := by
          rw [List.find?_eq_none]
          intro x hx
          have := rowCells_pos_ub (p := x.1) (c := x.2) hx
          have h2 : rowSize row = (row.map Cell.nodeSize).sum + 2 := rfl
          simp only [beq_iff_eq]
          omega
        rw [hnone, ih h]
        rfl

/-- A traversal entry is exactly what nodeAt returns at its position. -/
lemma nodeAt_of_mem {t : Table} {p : Nat} {c : Cell}
    (h : (p, c) ∈ t.cellsWithPos) : t.nodeAt p = some c := by
  unfold Table.nodeAt Table.cellsWithPos at *
  rw [tableCells_find?_eq h]
  rfl

/-- nodeAt results come from the traversal. -/
lemma mem_of_nodeAt {t : Table} {p : Nat} {c : Cell}
    (h : t.nodeAt p = some c) : (p, c) ∈ t.cellsWithPos := by
  unfold Table.nodeAt at h
  rcases hf : t.cellsWithPos.find? (fun x => x.1 == p) with _ | pc
  · rw [hf] at h
    simp at h
  · rw [hf] at h
    have hm := List.mem_of_find?_eq_some hf
    have hfst : pc.1 = p := by simpa using List.find?_some hf
    have hsnd : pc.2 = c := by simpa using h
    rw [← hfst, ← hsnd]
    exact hm

/-! ## applyUpdates lemmas -/

lemma applyCell_content (us : List (Nat × CellAttrs)) (p : Nat) (c : Cell) :
    (applyCell us p c).content = c.content := by
  unfold applyCell
  cases findUpdate us p <;> rfl

lemma applyCell_nodeSize (us : List (Nat × CellAttrs)) (p : Nat) (c : Cell) :
    (applyCell us p c).nodeSize = c.nodeSize := by
  unfold Cell.nodeSize
  rw [applyCell_content]

lemma applyRow_sizes (us : List (Nat × CellAttrs)) (off : Nat) (row : List Cell) :
    (applyRow us off row).map Cell.nodeSize = row.map Cell.nodeSize := by
  induction row generalizing off with
  | nil => rfl
  | cons c cs ih =>
      simp only [applyRow, List.map_cons]
      rw [applyCell_nodeSize, ih]

lemma applyRow_rowSize (us : List (Nat × CellAttrs)) (off : Nat) (row : List Cell) :
    rowSize (applyRow us off row) = rowSize row := by
  unfold rowSize
  rw [applyRow_sizes]

lemma rowCells_applyRow (us : List (Nat × CellAttrs)) (off : Nat) (row : List Cell) :
    rowCellsWithPos off (applyRow us off row) =
      (rowCellsWithPos off row).map (fun pc => (pc.1, applyCell us pc.1 pc.2)) := by
  induction row generalizing off with
  | nil => rfl
  | cons c cs ih =>
      simp only [applyRow, rowCellsWithPos, List.map_cons]
      rw [applyCell_nodeSize, ih]

lemma tableCells_applyRows (us : List (Nat × CellAttrs)) (off : Nat) (rows : Table) :
    tableCellsWithPos off (applyRows us off rows) =
      (tableCellsWithPos off rows).map (fun pc => (pc.1, applyCell us pc.1 pc.2)) := by
  induction rows generalizing off with
  | nil => rfl
  | cons row rest ih =>
      simp only [applyRows, tableCellsWithPos, List.map_append]
      rw [applyRow_rowSize, rowCells_applyRow, ih]

lemma find?_fst_map {l : List (Nat × Cell)} {g : Nat → Cell → Cell} {p : Nat} :
    (l.map (fun pc => (pc.1, g pc.1 pc.2))).find? (fun x => x.1 == p) =
      (l.find? (fun x => x.1 == p)).map (fun pc => (pc.1, g pc.1 pc.2)) := by
  induction l with
  | nil => rfl
  | cons pc rest ih =>
      by_cases hp : pc.1 = p
      · rw [List.map_cons, List.find?_cons_of_pos _ (by simpa using hp),
          List.find?_cons_of_pos _ (by simpa using hp)]
        rfl
      · rw [List.map_cons, List.find?_cons_of_neg _ (by simpa using hp),
          List.find?_cons_of_neg _ (by simpa using hp)]
        exact ih

/-- Applying updates rewrites exactly the attributes findUpdate selects. -/
lemma nodeAt_applyUpdates (t : Table) (us : List (Nat × CellAttrs)) (p : Nat) :
    (applyUpdates t us).nodeAt p = (t.nodeAt p).map (applyCell us p) := by
  unfold Table.nodeAt Table.cellsWithPos applyUpdates
  rw [tableCells_applyRows, find?_fst_map]
  rcases hf : (tableCellsWithPos 0 t).find? (fun x => x.1 == p) with _ | pc
  · rw [hf]
    rfl
  · rw [hf]
    have hfst : pc.1 = p := by simpa using List.find?_some hf
    simp [hfst]

lemma findUpdate_mem {us : List (Nat × CellAttrs)} {p : Nat} {a : CellAttrs}
    (h : findUpdate us p = some a) : (p, a) ∈ us := by
  induction us with
  | nil => simp [findUpdate] at h
  | cons qa rest ih =>
      unfold findUpdate at h
      by_cases hq : qa.1 = p
      · rw [if_pos hq] at h
        have hqa : qa = (p, a) := by
          obtain ⟨q, b⟩ := qa
          simp_all
        exact List.mem_cons.mpr (Or.inl hqa.symm)
      · rw [if_neg hq] at h
        exact List.mem_cons.mpr (Or.inr (ih h))

lemma findUpdate_eq_none {us : List (Nat × CellAttrs)} {p : Nat}
    (h : ∀ a, (p, a) ∉ us) : findUpdate us p = none := by
  induction us with
  | nil => rfl
  | cons qa rest ih =>
      unfold findUpdate
      by_cases hq : qa.1 = p
      · exfalso
        exact h qa.2 (by rw [← hq]; exact List.mem_cons_self _ _)
      · rw [if_neg hq]
        exact ih fun a ha => h a (List.mem_cons_of_mem _ ha)

lemma findUpdate_isSome_of_mem {us : List (Nat × CellAttrs)} {p : Nat} {a : CellAttrs}
    (h : (p, a) ∈ us) : ∃ b, findUpdate us p = some b := by
  induction us with
  | nil => simp at h
  | cons qa rest ih =>
      unfold findUpdate
      by_cases hq : qa.1 = p
      · exact ⟨qa.2, by rw [if_pos hq]⟩
      · rcases List.mem_cons.mp h with h0 | h0
        · exact absurd (congrArg Prod.fst h0).symm hq
        · rw [if_neg hq]
          exact ih h0

/-! ## Updates that keep spans and content keep the derived grid -/

lemma rowEntries_applyRow (us : List (Nat × CellAttrs)) (off hl : Nat)
    (row : List Cell)
    (H : ∀ pc ∈ rowCellsWithPos off row, ∀ a, findUpdate us pc.1 = some a →
      a.colspan = pc.2.attrs.colspan ∧ a.rowspan = pc.2.attrs.rowspan) :
    rowEntries off hl (applyRow us off row) = rowEntries off hl row := by
  induction row generalizing off with
  | nil => rfl
  | cons c cs ih =>
      simp only [applyRow, rowEntries]
      rw [applyCell_nodeSize]
      have hspans : (applyCell us off c).attrs.colspan = c.attrs.colspan ∧
          (applyCell us off c).attrs.rowspan = c.attrs.rowspan := by
        unfold applyCell
        rcases hf : findUpdate us off with _ | a
        · exact ⟨rfl, rfl⟩
        · have := H (off, c) (by simp [rowCellsWithPos]) a hf
          exact this
      rw [hspans.1, hspans.2,
        ih (off + c.nodeSize) fun pc hpc a hfa =>
          H pc (by simp [rowCellsWithPos, hpc]) a hfa]

lemma rowsEntries_applyRows (us : List (Nat × CellAttrs)) (off hl : Nat)
    (rows : Table)
    (H : ∀ pc ∈ tableCellsWithPos off rows, ∀ a, findUpdate us pc.1 = some a →
      a.colspan = pc.2.attrs.colspan ∧ a.rowspan = pc.2.attrs.rowspan) :
    rowsEntries off hl (applyRows us off rows) = rowsEntries off hl rows := by
  induction rows generalizing off hl with
  | nil => rfl
  | cons row rest ih =>
      simp only [applyRows, rowsEntries]
      rw [applyRow_rowSize,
        rowEntries_applyRow us (off + 1) hl row fun pc hpc a hfa =>
          H pc (by simp [tableCellsWithPos, hpc]) a hfa,
        ih (off + rowSize row) (hl - 1) fun pc hpc a hfa =>
          H pc (by simp [tableCellsWithPos, hpc]) a hfa]

lemma applyRows_length (us : List (Nat × CellAttrs)) (off : Nat) (rows : Table) :
    (applyRows us off rows).length = rows.length := by
  induction rows generalizing off with
  | nil => rfl
  | cons row rest ih =>
      simp only [applyRows, List.length_cons]
      rw [ih]

/-- Span- and content-preserving updates leave the derived grid unchanged. -/
lemma build_applyUpdates (t : Table) (us : List (Nat × CellAttrs))
    (H : ∀ pc ∈ t.cellsWithPos, ∀ a, findUpdate us pc.1 = some a →
      a.colspan = pc.2.attrs.colspan ∧ a.rowspan = pc.2.attrs.rowspan) :
    TableMap.build (applyUpdates t us) = TableMap.build t := by
  unfold TableMap.build applyUpdates
  rw [applyRows_length, rowsEntries_applyRows us 0 t.length t H]

/-! ## Characterization of updateColumnWidth -/

lemma updateOneRow_some {t : Table} {m : TableMap} {col : Nat} {w : Int} {row : Nat}
    {u : Nat × CellAttrs} (h : updateOneRow t m col w row = some u) :
    u.1 = m.map.getD (row * m.width + col) 0 ∧
      newAttrsAt t m col w (m.map.getD (row * m.width + col) 0) = some u.2 := by
  simp only [updateOneRow] at h
  by_cases hskip : row ≠ 0 ∧
      m.map.getD (row * m.width + col) 0 = m.map.getD (row * m.width + col - m.width) 0
  · rw [if_pos hskip] at h
    simp at h
  · rw [if_neg hskip] at h
    rcases hna : newAttrsAt t m col w (m.map.getD (row * m.width + col) 0) with _ | a
    · rw [hna] at h
      simp at h
    · rw [hna] at h
      have h2 : u = (m.map.getD (row * m.width + col) 0, a) := by
        simpa using h.symm
      subst h2
      exact ⟨rfl, rfl⟩

lemma newAttrsAt_some {t : Table} {m : TableMap} {col : Nat} {w : Int} {pos : Nat}
    {a : CellAttrs} (h : newAttrsAt t m col w pos = some a) :
    ∃ c, t.nodeAt pos = some c ∧
      ¬(c.attrs.colwidth.bind
          (fun l => l.get? (if c.attrs.colspan = 1 then 0 else col - m.colCount pos)) =
        some w) ∧
      a = ⟨c.attrs.colspan, c.attrs.rowspan,
        some ((c.attrs.colwidth.getD (zeroes c.attrs.colspan)).set
          (if c.attrs.colspan = 1 then 0 else col - m.colCount pos) w)⟩ := by
  simp only [newAttrsAt] at h
  split at h
  · simp at h
  · next c heq =>
      by_cases hcond : (c.attrs.colwidth.bind
          (fun l => l.get? (if c.attrs.colspan = 1 then 0 else col - m.colCount pos))) =
        some w
      · rw [if_pos hcond] at h
        simp at h
      · rw [if_neg hcond] at h
        exact ⟨c, heq, hcond, (Option.some_inj.mp h).symm⟩

lemma newAttrsAt_none {t : Table} {m : TableMap} {col : Nat} {w : Int} {pos : Nat}
    {c : Cell} (hc : t.nodeAt pos = some c)
    (h : newAttrsAt t m col w pos = none) :
    c.attrs.colwidth.bind
        (fun l => l.get? (if c.attrs.colspan = 1 then 0 else col - m.colCount pos)) =
      some w := by
  simp only [newAttrsAt] at h
  split at h
  · next hnone =>
      rw [hnone] at hc
      simp at hc
  · next c2 heq =>
      rw [heq] at hc
      obtain rfl := Option.some_inj.mp hc
      by_cases hcond : (c2.attrs.colwidth.bind
          (fun l => l.get? (if c2.attrs.colspan = 1 then 0 else col - m.colCount pos))) =
        some w
      · exact hcond
      · rw [if_neg hcond] at h
        simp at h

lemma mem_updateColumnWidth {t : Table} {cellRel : Nat} {w : Int} {u : Nat × CellAttrs}
    (hu : u ∈ updateColumnWidth t cellRel w) :
    ∃ row < (TableMap.build t).height,
      updateOneRow t (TableMap.build t) (targetCol t cellRel) w row = some u := by
  unfold updateColumnWidth at hu
  rcases hc : t.nodeAt cellRel with _ | c0
  · rw [hc] at hu
    simp at hu
  · rw [hc] at hu
    simp only [List.mem_filterMap, List.mem_range] at hu
    obtain ⟨row, hrow, hf⟩ := hu
    refine ⟨row, hrow, ?_⟩
    have hcol : targetCol t cellRel =
        (TableMap.build t).colCount cellRel + c0.attrs.colspan - 1 := by
      unfold targetCol
      rw [hc]
    rw [hcol]
    exact hf

lemma updateColumnWidth_eq_filterMap {t : Table} {cellRel : Nat} {w : Int} {c0 : Cell}
    (hc : t.nodeAt cellRel = some c0) :
    updateColumnWidth t cellRel w =
      (List.range (TableMap.build t).height).filterMap
        (updateOneRow t (TableMap.build t) (targetCol t cellRel) w) := by
  unfold updateColumnWidth targetCol
  rw [hc]

lemma updateColumnWidth_of_nodeAt_none {t : Table} {cellRel : Nat} {w : Int}
    (h : t.nodeAt cellRel = none) : updateColumnWidth t cellRel w = [] := by
  unfold updateColumnWidth
  rw [h]

lemma newAttrsAt_eq_none {t : Table} {m : TableMap} {col : Nat} {w : Int} {pos : Nat}
    {c : Cell} (hc : t.nodeAt pos = some c)
    (heq : c.attrs.colwidth.bind
        (fun l => l.get? (if c.attrs.colspan = 1 then 0 else col - m.colCount pos)) =
      some w) :
    newAttrsAt t m col w pos = none := by
  simp only [newAttrsAt, hc]
  rw [if_pos heq]

lemma updateOneRow_eq_none {t : Table} {m : TableMap} {col : Nat} {w : Int} {row : Nat}
    (h : newAttrsAt t m col w (m.map.getD (row * m.width + col) 0) = none) :
    updateOneRow t m col w row = none := by
  simp only [updateOneRow]
  split
  · rfl
  · rw [h]
    rfl

/-- Any update recorded by updateColumnWidth at position p is the
deterministic rewrite of the cell stored at p. -/
lemma findUpdate_updateColumnWidth {t : Table} {cellRel : Nat} {w : Int} {p : Nat}
    {a : CellAttrs} (h : findUpdate (updateColumnWidth t cellRel w) p = some a) :
    ∃ cu, t.nodeAt p = some cu ∧
      ¬(cu.attrs.colwidth.bind
          (fun l => l.get? (localIndex t cu p (targetCol t cellRel))) = some w) ∧
      a = ⟨cu.attrs.colspan, cu.attrs.rowspan,
        some ((cu.attrs.colwidth.getD (zeroes cu.attrs.colspan)).set
          (localIndex t cu p (targetCol t cellRel)) w)⟩ := by
  have hmem := findUpdate_mem h
  obtain ⟨row, hrow, hone⟩ := mem_updateColumnWidth hmem
  obtain ⟨hu1, hna⟩ := updateOneRow_some hone
  simp only at hu1
  rw [← hu1] at hna
  obtain ⟨cu, hcu, hne, ha⟩ := newAttrsAt_some hna
  exact ⟨cu, hcu, hne, ha⟩

/-- updateColumnWidth preserves every cell's spans. -/
lemma updateColumnWidth_spans (t : Table) (cellRel : Nat) (w : Int) :
    ∀ pc ∈ t.cellsWithPos, ∀ a,
      findUpdate (updateColumnWidth t cellRel w) pc.1 = some a →
      a.colspan = pc.2.attrs.colspan ∧ a.rowspan = pc.2.attrs.rowspan := by
  intro pc hpc a hf
  obtain ⟨cu, hcu, _, ha⟩ := findUpdate_updateColumnWidth hf
  have hn := nodeAt_of_mem hpc
  rw [hn] at hcu
  obtain rfl := Option.some_inj.mp hcu
  rw [ha]
  exact ⟨rfl, rfl⟩

lemma applyCell_updateColumnWidth_spans (t : Table) (cellRel : Nat) (w : Int)
    {p : Nat} {c : Cell} (hc : t.nodeAt p = some c) :
    (applyCell (updateColumnWidth t cellRel w) p c).attrs.colspan = c.attrs.colspan ∧
      (applyCell (updateColumnWidth t cellRel w) p c).attrs.rowspan =
        c.attrs.rowspan := by
  unfold applyCell
  rcases hf : findUpdate (updateColumnWidth t cellRel w) p with _ | a
  · exact ⟨rfl, rfl⟩
  · obtain ⟨cu, hcu, _, ha⟩ := findUpdate_updateColumnWidth hf
    rw [hc] at hcu
    obtain rfl := Option.some_inj.mp hcu
    rw [ha]
    exact ⟨rfl, rfl⟩

/-! ## Extraction of the decidable grid hypotheses -/

lemma colValid_spec {t : Table} {col : Nat} (hv : colValidB t col = true)
    {r : Nat} (hr : r < (TableMap.build t).height) :
    ∃ c,
      t.nodeAt ((TableMap.build t).map.getD (r * (TableMap.build t).width + col) 0) =
        some c ∧
      (TableMap.build t).colCount
          ((TableMap.build t).map.getD (r * (TableMap.build t).width + col) 0) ≤ col ∧
      col < (TableMap.build t).colCount
          ((TableMap.build t).map.getD (r * (TableMap.build t).width + col) 0) +
        c.attrs.colspan := by
  unfold colValidB at hv
  rw [List.all_eq_true] at hv
  have hthis := hv r (List.mem_range.mpr hr)
  simp only at hthis
  rcases hc : t.nodeAt
      ((TableMap.build t).map.getD (r * (TableMap.build t).width + col) 0) with _ | c
  · rw [hc] at hthis
    simp at hthis
  · rw [hc] at hthis
    exact ⟨c, rfl, of_decide_eq_true hthis⟩

lemma colwidthInv_spec {t : Table} (hinv : colwidthInvB t = true) {p : Nat} {c : Cell}
    (hc : t.nodeAt p = some c) {l : List Int} (hl : c.attrs.colwidth = some l) :
    l.length = c.attrs.colspan := by
  have hm := mem_of_nodeAt hc
  unfold colwidthInvB at hinv
  rw [List.all_eq_true] at hinv
  have hthis := hinv (p, c) hm
  simp only [hl] at hthis
  simpa using hthis

/-! ## Claim theorems -/

/-- C1: a redistribution at target column k changes, in each updated cell,
only the colwidth entry at the cell's local span index for k (zero when
colspan is one, else k minus the cell's starting column); every other entry
of the (stored or freshly zeroed) sequence and the spans are kept, every
updated cell intersects column k, and cells not intersecting column k are
left entirely unchanged. -/
theorem updateColumnWidth_local_frame (t : Table) (cellRel : Nat) (w : Int)
    (u : Nat × CellAttrs) (p : Nat) (c : Cell)
    (hv : colValidB t (targetCol t cellRel) = true)
    (hinv : colwidthInvB t = true) :
    (u ∈ updateColumnWidth t cellRel w →
      ∃ cu, t.nodeAt u.1 = some cu ∧ cellCovers t u.1 cu (targetCol t cellRel) ∧
        u.2.colspan = cu.attrs.colspan ∧ u.2.rowspan = cu.attrs.rowspan ∧
        ∃ l, u.2.colwidth = some l ∧ l.length = cu.attrs.colspan ∧
          l.get? (localIndex t cu u.1 (targetCol t cellRel)) = some w ∧
          ∀ j, j ≠ localIndex t cu u.1 (targetCol t cellRel) →
            l.get? j = (cu.attrs.colwidth.getD (zeroes cu.attrs.colspan)).get? j) ∧
    (t.nodeAt p = some c → ¬ cellCovers t p c (targetCol t cellRel) →
      (applyUpdates t (updateColumnWidth t cellRel w)).nodeAt p = t.nodeAt p) := by
  constructor
  · intro hu
    obtain ⟨row, hrow, hone⟩ := mem_updateColumnWidth hu
    obtain ⟨hu1, hna⟩ := updateOneRow_some hone
    rw [← hu1] at hna
    obtain ⟨cu, hcu, hne, ha⟩ := newAttrsAt_some hna
    obtain ⟨c', hslot, hle, hlt⟩ := colValid_spec hv hrow
    rw [← hu1] at hslot hle hlt
    rw [hcu] at hslot
    obtain rfl := Option.some_inj.mp hslot
    have hidx : localIndex t cu u.1 (targetCol t cellRel) =
        (if cu.attrs.colspan = 1 then 0
          else targetCol t cellRel - (TableMap.build t).colCount u.1) := rfl
    have hbaselen : (cu.attrs.colwidth.getD (zeroes cu.attrs.colspan)).length =
        cu.attrs.colspan := by
      rcases hcw : cu.attrs.colwidth with _ | l0
      · simp [zeroes]
      · simpa using colwidthInv_spec hinv hcu hcw
    have hlt' : localIndex t cu u.1 (targetCol t cellRel) <
        (cu.attrs.colwidth.getD (zeroes cu.attrs.colspan)).length := by
      rw [hbaselen, hidx]
      by_cases h1 : cu.attrs.colspan = 1
      · simp [h1]
      · rw [if_neg h1]
        omega
    refine ⟨cu, hcu, ⟨hle, hlt⟩, ?_, ?_, ?_⟩
    · rw [ha]
    · rw [ha]
    · refine ⟨(cu.attrs.colwidth.getD (zeroes cu.attrs.colspan)).set
        (localIndex t cu u.1 (targetCol t cellRel)) w, ?_, ?_, ?_, ?_⟩
      · rw [ha, hidx]
      · rw [List.length_set, hbaselen]
      · rw [List.get?_eq_getElem?]
        exact List.getElem?_set_eq_of_lt w hlt'
      · intro j hj
        rw [List.get?_eq_getElem?, List.get?_eq_getElem?]
        exact List.getElem?_set_ne (fun hEq => hj hEq.symm)
  · intro hc hnc
    have hnone : findUpdate (updateColumnWidth t cellRel w) p = none := by
      apply findUpdate_eq_none
      intro a ha
      obtain ⟨row, hrow, hone⟩ := mem_updateColumnWidth ha
      obtain ⟨hu1, hna⟩ := updateOneRow_some hone
      obtain ⟨c', hslot, hle, hlt⟩ := colValid_spec hv hrow
      simp only [← hu1] at hslot hle hlt
      rw [hc] at hslot
      obtain rfl := Option.some_inj.mp hslot
      exact hnc ⟨hle, hlt⟩
    rw [nodeAt_applyUpdates, hc]
    simp [applyCell, hnone]

/-- C1 witness: in the example table, resizing at the handle on the middle
unit cell (position 5, target column 1) updates the three-column cell at
position 15 only at local index 1, and leaves the non-intersecting cell at
position 1 unchanged. -/
theorem updateColumnWidth_local_frame_witness :
    ((15, (⟨3, 1, some [10, 150, 30]⟩ : CellAttrs)) ∈ updateColumnWidth exTable 5 150 →
      ∃ cu, exTable.nodeAt 15 = some cu ∧
        cellCovers exTable 15 cu (targetCol exTable 5) ∧
        (3 : Nat) = cu.attrs.colspan ∧ (1 : Nat) = cu.attrs.rowspan ∧
        ∃ l, (some [10, 150, 30] : Option (List Int)) = some l ∧
          l.length = cu.attrs.colspan ∧
          l.get? (localIndex exTable cu 15 (targetCol exTable 5)) = some 150 ∧
          ∀ j, j ≠ localIndex exTable cu 15 (targetCol exTable 5) →
            l.get? j = (cu.attrs.colwidth.getD (zeroes cu.attrs.colspan)).get? j) ∧
    (exTable.nodeAt 1 = some (mkCell 1 1 none) →
      ¬ cellCovers exTable 1 (mkCell 1 1 none) (targetCol exTable 5) →
      (applyUpdates exTable (updateColumnWidth exTable 5 150)).nodeAt 1 =
        exTable.nodeAt 1) :=
  updateColumnWidth_local_frame exTable 5 150
    (15, (⟨3, 1, some [10, 150, 30]⟩ : CellAttrs)) 1 (mkCell 1 1 none)
    (by decide) (by decide)

/-- C4: redistribution is a no-op when nothing differs: a cell whose stored
colwidth already holds the target width at its local index gets no update,
when every cell intersecting the target column already holds the target
width no update is emitted at all (so no transaction is dispatched), and a
second redistribution after applying the first one emits nothing. -/
theorem updateColumnWidth_noop_idempotent (t : Table) (cellRel : Nat) (w : Int)
    (p : Nat) (c : Cell)
    (hv : colValidB t (targetCol t cellRel) = true)
    (hinv : colwidthInvB t = true) :
    (t.nodeAt p = some c →
      c.attrs.colwidth.bind
          (fun l => l.get? (localIndex t c p (targetCol t cellRel))) = some w →
      p ∉ (updateColumnWidth t cellRel w).map Prod.fst) ∧
    ((∀ q cq, t.nodeAt q = some cq → cellCovers t q cq (targetCol t cellRel) →
        cq.attrs.colwidth.bind
          (fun l => l.get? (localIndex t cq q (targetCol t cellRel))) = some w) →
      updateColumnWidth t cellRel w = []) ∧
    updateColumnWidth (applyUpdates t (updateColumnWidth t cellRel w)) cellRel w
      = [] := by
  refine ⟨?_, ?_, ?_⟩
  · intro hc hstore hmem
    rw [List.mem_map] at hmem
    obtain ⟨u, hu, hup⟩ := hmem
    obtain ⟨row, hrow, hone⟩ := mem_updateColumnWidth hu
    obtain ⟨hu1, hna⟩ := updateOneRow_some hone
    rw [← hu1, hup] at hna
    obtain ⟨cu, hcu, hne, _⟩ := newAttrsAt_some hna
    rw [hc] at hcu
    obtain rfl := Option.some_inj.mp hcu
    exact hne hstore
  · intro hall
    rcases hc0 : t.nodeAt cellRel with _ | c0
    · unfold updateColumnWidth
      rw [hc0]
    · rw [updateColumnWidth_eq_filterMap hc0]
      rw [List.filterMap_eq_nil_iff]
      intro row hrowmem
      rw [List.mem_range] at hrowmem
      apply updateOneRow_eq_none
      obtain ⟨cs, hcs, hle, hlt⟩ := colValid_spec hv hrowmem
      exact newAttrsAt_eq_none hcs (hall _ cs hcs ⟨hle, hlt⟩)
  · rcases hc0 : t.nodeAt cellRel with _ | c0
    · have hnone : (applyUpdates t (updateColumnWidth t cellRel w)).nodeAt cellRel
          = none := by
        rw [nodeAt_applyUpdates, hc0]
        rfl
      exact updateColumnWidth_of_nodeAt_none hnone
    · have hc0' : (applyUpdates t (updateColumnWidth t cellRel w)).nodeAt cellRel =
          some (applyCell (updateColumnWidth t cellRel w) cellRel c0) := by
        rw [nodeAt_applyUpdates, hc0]
        rfl
      have hmap : TableMap.build (applyUpdates t (updateColumnWidth t cellRel w)) =
          TableMap.build t :=
        build_applyUpdates t _ (updateColumnWidth_spans t cellRel w)
      have hsp0 :=
        applyCell_updateColumnWidth_spans t cellRel w (p := cellRel) (c := c0) hc0
      have hcol' : targetCol (applyUpdates t (updateColumnWidth t cellRel w)) cellRel
          = targetCol t cellRel := by
        unfold targetCol
        rw [hc0', hc0]
        simp only [hmap, hsp0.1]
      rw [updateColumnWidth_eq_filterMap hc0', hmap, hcol']
      rw [List.filterMap_eq_nil_iff]
      intro row hrowmem
      rw [List.mem_range] at hrowmem
      by_cases hskip : row ≠ 0 ∧
          (TableMap.build t).map.getD
              (row * (TableMap.build t).width + targetCol t cellRel) 0 =
            (TableMap.build t).map.getD
              (row * (TableMap.build t).width + targetCol t cellRel -
                (TableMap.build t).width) 0
      · simp only [updateOneRow]
        rw [if_pos hskip]
      · apply updateOneRow_eq_none
        obtain ⟨cs, hcs, hle, hlt⟩ := colValid_spec hv hrowmem
        have hcs' : (applyUpdates t (updateColumnWidth t cellRel w)).nodeAt
            ((TableMap.build t).map.getD
              (row * (TableMap.build t).width + targetCol t cellRel) 0) =
            some (applyCell (updateColumnWidth t cellRel w)
              ((TableMap.build t).map.getD
                (row * (TableMap.build t).width + targetCol t cellRel) 0) cs) := by
          rw [nodeAt_applyUpdates, hcs]
          rfl
        apply newAttrsAt_eq_none hcs'
        have hspcs := applyCell_updateColumnWidth_spans t cellRel w
          (p := (TableMap.build t).map.getD
            (row * (TableMap.build t).width + targetCol t cellRel) 0) (c := cs) hcs
        rw [hspcs.1]
        unfold applyCell
        rcases hf : findUpdate (updateColumnWidth t cellRel w)
            ((TableMap.build t).map.getD
              (row * (TableMap.build t).width + targetCol t cellRel) 0) with _ | a
        · rcases hrun : newAttrsAt t (TableMap.build t) (targetCol t cellRel) w
              ((TableMap.build t).map.getD
                (row * (TableMap.build t).width + targetCol t cellRel) 0) with _ | a0
          · exact newAttrsAt_none hcs hrun
          · exfalso
            have honerow : updateOneRow t (TableMap.build t) (targetCol t cellRel) w
                row = some
                (((TableMap.build t).map.getD
                  (row * (TableMap.build t).width + targetCol t cellRel) 0), a0) := by
              simp only [updateOneRow]
              rw [if_neg hskip, hrun]
              rfl
            have hmem2 : (((TableMap.build t).map.getD
                (row * (TableMap.build t).width + targetCol t cellRel) 0), a0) ∈
                updateColumnWidth t cellRel w := by
              rw [updateColumnWidth_eq_filterMap hc0]
              exact List.mem_filterMap.mpr
                ⟨row, List.mem_range.mpr hrowmem, honerow⟩
            obtain ⟨b, hb⟩ := findUpdate_isSome_of_mem hmem2
            rw [hf] at hb
            exact Option.noConfusion hb
        · obtain ⟨cu, hcu, _, ha⟩ := findUpdate_updateColumnWidth hf
          rw [hcs] at hcu
          obtain rfl := Option.some_inj.mp hcu
          rw [ha]
          simp only [Option.some_bind]
          have hbaselen : (cs.attrs.colwidth.getD (zeroes cs.attrs.colspan)).length =
              cs.attrs.colspan := by
            rcases hcw : cs.attrs.colwidth with _ | l0
            · simp [zeroes]
            · simpa using colwidthInv_spec hinv hcs hcw
          have hidx : localIndex t cs
              ((TableMap.build t).map.getD
                (row * (TableMap.build t).width + targetCol t cellRel) 0)
              (targetCol t cellRel) <
              (cs.attrs.colwidth.getD (zeroes cs.attrs.colspan)).length := by
            rw [hbaselen]
            unfold localIndex
            by_cases h1 : cs.attrs.colspan = 1
            · simp [h1]
            · rw [if_neg h1]
              omega
          rw [List.get?_eq_getElem?]
          exact List.getElem?_set_eq_of_lt w hidx

/-- C4 witness: in the example table, a second redistribution to 150 after
the first one emits no update; the no-op branch is instantiated at the
spanning cell of the once-updated table. -/
theorem updateColumnWidth_noop_idempotent_witness :
    ((applyUpdates exTable (updateColumnWidth exTable 5 150)).nodeAt 15 =
        some ⟨⟨3, 1, some [10, 150, 30]⟩, 2⟩ →
      (⟨⟨3, 1, some [10, 150, 30]⟩, 2⟩ : Cell).attrs.colwidth.bind
          (fun l => l.get?
            (localIndex (applyUpdates exTable (updateColumnWidth exTable 5 150))
              (⟨⟨3, 1, some [10, 150, 30]⟩, 2⟩ : Cell) 15
              (targetCol (applyUpdates exTable (updateColumnWidth exTable 5 150)) 5)))
        = some 150 →
      (15 : Nat) ∉
        (updateColumnWidth (applyUpdates exTable (updateColumnWidth exTable 5 150))
          5 150).map Prod.fst) ∧
    ((∀ q cq,
        (applyUpdates exTable (updateColumnWidth exTable 5 150)).nodeAt q = some cq →
        cellCovers (applyUpdates exTable (updateColumnWidth exTable 5 150)) q cq
          (targetCol (applyUpdates exTable (updateColumnWidth exTable 5 150)) 5) →
        cq.attrs.colwidth.bind
          (fun l => l.get?
            (localIndex (applyUpdates exTable (updateColumnWidth exTable 5 150)) cq q
              (targetCol (applyUpdates exTable (updateColumnWidth exTable 5 150)) 5)))
          = some 150) →
      updateColumnWidth (applyUpdates exTable (updateColumnWidth exTable 5 150)) 5 150
        = []) ∧
    updateColumnWidth
      (applyUpdates (applyUpdates exTable (updateColumnWidth exTable 5 150))
        (updateColumnWidth (applyUpdates exTable (updateColumnWidth exTable 5 150))
          5 150))
      5 150 = [] :=
  updateColumnWidth_noop_idempotent
    (applyUpdates exTable (updateColumnWidth exTable 5 150)) 5 150 15
    ⟨⟨3, 1, some [10, 150, 30]⟩, 2⟩ (by decide) (by decide)

/-- C2: for every drag with anchor coordinate a, anchor dimension d and
minimum cell size m, a pointer move to coordinate c along the drag's axis
(clientX on the column axis, clientY on the row axis) yields the live
preview dimension max(m, d + (c − a)); with d = 100, a = 50, m = 25, c = 10
the result is 60. -/
theorem draggedDimension_live_preview :
    (∀ (axis : Axis) (a d m : Int) (e : MouseEvt),
      draggedDimension (some axis) ⟨a, d⟩ e m = max m (d + (coordAlong axis e - a))) ∧
    draggedDimension (some Axis.col) ⟨50, 100⟩ ⟨10, 0⟩ 25 = 60 := by
  constructor
  · intro axis a d m e
    cases axis <;> simp [draggedDimension, coordAlong]
  · decide

/-- C3: for a state with active handle P ≥ 0 and a document-changing
transaction without a resize-plugin meta action, an edit shifting the handle
by +N (with the mapped position still pointing at a cell) yields active
handle P + N, and a mapped position no longer pointing at a cell yields −1. -/
theorem resizeState_apply_remaps_handle (s : ResizeState) (tr : Transaction)
    (N : Int) (h1 : s.activeHandle > -1) (h2 : tr.meta = none)
    (h3 : tr.docChanged = true) :
    (tr.pointsAtCellAfter (tr.mapPos s.activeHandle) = true →
      tr.mapPos s.activeHandle = s.activeHandle + N →
      (s.apply tr).activeHandle = s.activeHandle + N) ∧
    (tr.pointsAtCellAfter (tr.mapPos s.activeHandle) = false →
      (s.apply tr).activeHandle = -1) := by
  have happ : s.apply tr =
      ⟨if tr.pointsAtCellAfter (tr.mapPos s.activeHandle) = true then
          tr.mapPos s.activeHandle else -1,
        s.dragging, none⟩ := by
    unfold ResizeState.apply
    rw [h2]
    simp [h1, h3]
  constructor
  · intro hp hn
    rw [happ, hn]
    rw [hn] at hp
    simp [hp]
  · intro hp
    rw [happ]
    simp [hp]

/-- C3 witness: handle 4 shifted by +3 maps to 7 when the mapped position
points at a cell, and clears to −1 when it does not. -/
theorem resizeState_apply_remaps_handle_witness :
    ((Transaction.mk none true (fun p => p + 3) (fun _ => true)).pointsAtCellAfter
        ((Transaction.mk none true (fun p => p + 3) (fun _ => true)).mapPos
          (ResizeState.mk 4 none (some Axis.col)).activeHandle) = true →
      (Transaction.mk none true (fun p => p + 3) (fun _ => true)).mapPos
          (ResizeState.mk 4 none (some Axis.col)).activeHandle =
        (ResizeState.mk 4 none (some Axis.col)).activeHandle + 3 →
      ((ResizeState.mk 4 none (some Axis.col)).apply
          (Transaction.mk none true (fun p => p + 3) (fun _ => true))).activeHandle =
        (ResizeState.mk 4 none (some Axis.col)).activeHandle + 3) ∧
    ((Transaction.mk none true (fun p => p + 3) (fun _ => true)).pointsAtCellAfter
        ((Transaction.mk none true (fun p => p + 3) (fun _ => true)).mapPos
          (ResizeState.mk 4 none (some Axis.col)).activeHandle) = false →
      ((ResizeState.mk 4 none (some Axis.col)).apply
          (Transaction.mk none true (fun p => p + 3) (fun _ => true))).activeHandle = -1) :=
  resizeState_apply_remaps_handle (ResizeState.mk 4 none (some Axis.col))
    (Transaction.mk none true (fun p => p + 3) (fun _ => true)) 3
    (by decide) rfl rfl

/-- C10: on a document-changing transaction without a meta action, a state
with an active handle keeps its dragging field, has its handle mapped (or
cleared to −1 when invalid), but its axis field is always dropped to none. -/
theorem resizeState_apply_drops_axis (s : ResizeState) (tr : Transaction)
    (h1 : s.activeHandle > -1) (h2 : tr.meta = none)
    (h3 : tr.docChanged = true) :
    (s.apply tr).position = none ∧ (s.apply tr).dragging = s.dragging ∧
    (s.apply tr).activeHandle =
      (if tr.pointsAtCellAfter (tr.mapPos s.activeHandle) = true then
        tr.mapPos s.activeHandle else -1) := by
  have happ : s.apply tr =
      ⟨if tr.pointsAtCellAfter (tr.mapPos s.activeHandle) = true then
          tr.mapPos s.activeHandle else -1,
        s.dragging, none⟩ := by
    unfold ResizeState.apply
    rw [h2]
    simp [h1, h3]
  rw [happ]
  exact ⟨rfl, rfl, rfl⟩

/-- C10 witness: a valid remap keeps dragging and yields the mapped handle
with the axis dropped. -/
theorem resizeState_apply_drops_axis_witness :
    ((ResizeState.mk 4 (some ⟨50, 100⟩) (some Axis.row)).apply
        (Transaction.mk none true (fun p => p + 3) (fun _ => true))).position = none ∧
    ((ResizeState.mk 4 (some ⟨50, 100⟩) (some Axis.row)).apply
        (Transaction.mk none true (fun p => p + 3) (fun _ => true))).dragging =
      (ResizeState.mk 4 (some ⟨50, 100⟩) (some Axis.row)).dragging ∧
    ((ResizeState.mk 4 (some ⟨50, 100⟩) (some Axis.row)).apply
        (Transaction.mk none true (fun p => p + 3) (fun _ => true))).activeHandle =
      (if (Transaction.mk none true (fun p => p + 3) (fun _ => true)).pointsAtCellAfter
          ((Transaction.mk none true (fun p => p + 3) (fun _ => true)).mapPos
            (ResizeState.mk 4 (some ⟨50, 100⟩) (some Axis.row)).activeHandle) = true then
        (Transaction.mk none true (fun p => p + 3) (fun _ => true)).mapPos
          (ResizeState.mk 4 (some ⟨50, 100⟩) (some Axis.row)).activeHandle
      else -1) :=
  resizeState_apply_drops_axis (ResizeState.mk 4 (some ⟨50, 100⟩) (some Axis.row))
    (Transaction.mk none true (fun p => p + 3) (fun _ => true))
    (by decide) rfl rfl

/-- C6: colwidth, when present, has length exactly colspan: getCellAttrs
accepts a data-colwidth list only when its length equals the parsed colspan
(otherwise colwidth is null), and every width sequence built by
redistribution has length exactly the updated cell's colspan. -/
theorem colwidth_length_invariant (dom : DomCell) (lp : List Int)
    (t : Table) (cellRel : Nat) (w : Int) (u : Nat × CellAttrs) (l : List Int)
    (hinv : colwidthInvB t = true) :
    ((getCellAttrs dom).colwidth = some lp →
      (getCellAttrs dom).colspan = some lp.length) ∧
    (u ∈ updateColumnWidth t cellRel w → u.2.colwidth = some l →
      l.length = u.2.colspan) := by
  constructor
  · intro h
    simp only [getCellAttrs] at h ⊢
    split at h
    · next l0 n heq1 heq2 =>
        rw [heq2]
        split at h
        · next hlen =>
            obtain rfl := Option.some_inj.mp h.symm
            rw [hlen]
        · simp at h
    · simp at h
  · intro hu hl
    obtain ⟨row, hrow, hone⟩ := mem_updateColumnWidth hu
    obtain ⟨hu1, hna⟩ := updateOneRow_some hone
    rw [← hu1] at hna
    obtain ⟨cu, hcu, _, ha⟩ := newAttrsAt_some hna
    have hbaselen : (cu.attrs.colwidth.getD (zeroes cu.attrs.colspan)).length =
        cu.attrs.colspan := by
      rcases hcw : cu.attrs.colwidth with _ | l0
      · simp [zeroes]
      · simpa using colwidthInv_spec hinv hcu hcw
    rw [ha] at hl
    simp only at hl
    obtain rfl := Option.some_inj.mp hl.symm
    rw [ha]
    simp only [List.length_set]
    exact hbaselen

/-- C6 witness: a parsed two-entry data-colwidth with colspan two keeps the
invariant, and the redistribution update of the spanning cell in the example
table has a width list of length exactly its colspan. -/
theorem colwidth_length_invariant_witness :
    ((getCellAttrs ⟨some ['1', '0', ',', '2', '0'], some ['2'], none⟩).colwidth =
        some [10, 20] →
      (getCellAttrs ⟨some ['1', '0', ',', '2', '0'], some ['2'], none⟩).colspan =
        some ([10, 20] : List Int).length) ∧
    ((15, (⟨3, 1, some [10, 150, 30]⟩ : CellAttrs)) ∈ updateColumnWidth exTable 5 150 →
      (15, (⟨3, 1, some [10, 150, 30]⟩ : CellAttrs)).2.colwidth =
        some [10, 150, 30] →
      ([10, 150, 30] : List Int).length =
        (15, (⟨3, 1, some [10, 150, 30]⟩ : CellAttrs)).2.colspan) :=
  colwidth_length_invariant ⟨some ['1', '0', ',', '2', '0'], some ['2'], none⟩
    [10, 20] exTable 5 150 (15, (⟨3, 1, some [10, 150, 30]⟩ : CellAttrs))
    [10, 150, 30] (by decide)

/-- C7: the edge candidates of a non-dragging mouse move are tested in the
order left, right, top, bottom, with the column-axis threshold comparisons
x − left ≤ minSize and right − x ≤ minSize and the row-axis flipped-sign
complement comparisons top − y ≥ −minSize and y − bottom ≥ −minSize. -/
theorem handleMouseMove_edge_test_convention (x y l r t b m : Int) :
    (edgeTests x y l r t b m = some (Axis.col, Side.left) ↔ x - l ≤ m) ∧
    (edgeTests x y l r t b m = some (Axis.col, Side.right) ↔
      ¬(x - l ≤ m) ∧ r - x ≤ m) ∧
    (edgeTests x y l r t b m = some (Axis.row, Side.top) ↔
      ¬(x - l ≤ m) ∧ ¬(r - x ≤ m) ∧ t - y ≥ -m) ∧
    (edgeTests x y l r t b m = some (Axis.row, Side.bottom) ↔
      ¬(x - l ≤ m) ∧ ¬(r - x ≤ m) ∧ ¬(t - y ≥ -m) ∧ y - b ≥ -m) ∧
    (edgeTests x y l r t b m = none ↔
      ¬(x - l ≤ m) ∧ ¬(r - x ≤ m) ∧ ¬(t - y ≥ -m) ∧ ¬(y - b ≥ -m)) := by
  unfold edgeTests
  split_ifs with h1 h2 h3 h4 <;> simp_all

/-- C8: when lastColumnResizable is false and the resolved edge cell's span
ends at the grid's last column, handleMouseMove suppresses the result: no
handle update is produced and the state is left unchanged, so the trailing
column cannot be resized. -/
theorem lastColumnResizable_suppresses_trailing (activeHandle : Int)
    (dragging : Bool) (cell : Int) (positionCell : Option Axis) (t : Table)
    (tableStart : Int) (c : Cell)
    (hcell : cell ≠ -1)
    (hc : t.nodeAt (cell - tableStart).toNat = some c)
    (hcol : (TableMap.build t).colCount (cell - tableStart).toNat +
        c.attrs.colspan - 1 = (TableMap.build t).width - 1) :
    handleMouseMoveResult activeHandle dragging cell positionCell false t tableStart
      = none := by
  unfold handleMouseMoveResult
  by_cases hd : dragging = true
  · rw [if_pos hd]
  · rw [if_neg hd]
    by_cases ha : cell = activeHandle
    · rw [if_pos ha]
    · rw [if_neg ha]
      simp only [hc, if_neg hcell, Bool.false_eq_true, if_false]
      have hb : ((TableMap.build t).colCount (cell - tableStart).toNat +
          c.attrs.colspan - 1 == (TableMap.build t).width - 1) = true :=
        beq_iff_eq.mpr hcol
      rw [if_pos hb]

/-- C8 witness: with lastColumnResizable false, the edge on the trailing
unit cell of the example table (position 9, last grid column) is
suppressed. -/
theorem lastColumnResizable_suppresses_trailing_witness :
    handleMouseMoveResult (-1) false 9 (some Axis.col) false exTable 0 = none :=
  lastColumnResizable_suppresses_trailing (-1) false 9 (some Axis.col) exTable 0
    (mkCell 1 1 none) (by decide) (by decide) (by decide)

/-- C5: on the column axis handleDecorations emits a marker at grid row r of
the boundary column after the active cell's span exactly when the slot left
of the boundary differs from the slot right of it (or the boundary is the
grid's right edge) and differs from the slot above it (or r is the top
row); the row axis is symmetric; hence in a three-by-three grid whose
top-left cell spans two columns and two rows, that cell gets exactly one
column-boundary marker and one row-boundary marker, not four. -/
theorem handleDecorations_dedup (t : Table) (cellRel : Nat) (c : Cell)
    (row col : Nat) (hc : t.nodeAt cellRel = some c) :
    (row ∈ decorationColRows t cellRel ↔
      row < (TableMap.build t).height ∧
        (((TableMap.build t).colCount cellRel + c.attrs.colspan =
            (TableMap.build t).width ∨
          (TableMap.build t).map.getD
              ((TableMap.build t).colCount cellRel + c.attrs.colspan +
                row * (TableMap.build t).width - 1) 0 ≠
            (TableMap.build t).map.getD
              ((TableMap.build t).colCount cellRel + c.attrs.colspan +
                row * (TableMap.build t).width - 1 + 1) 0) ∧
        (row = 0 ∨
          (TableMap.build t).map.getD
              ((TableMap.build t).colCount cellRel + c.attrs.colspan +
                row * (TableMap.build t).width - 1) 0 ≠
            (TableMap.build t).map.getD
              ((TableMap.build t).colCount cellRel + c.attrs.colspan +
                row * (TableMap.build t).width - 1 - (TableMap.build t).width) 0))) ∧
    (col ∈ decorationRowCols t cellRel ↔
      col < (TableMap.build t).width ∧
        (((TableMap.build t).rowCount cellRel + c.attrs.rowspan =
            (TableMap.build t).height ∨
          (TableMap.build t).map.getD
              (((TableMap.build t).rowCount cellRel + c.attrs.rowspan - 1) *
                (TableMap.build t).width + col) 0 ≠
            (TableMap.build t).map.getD
              (((TableMap.build t).rowCount cellRel + c.attrs.rowspan - 1) *
                (TableMap.build t).width + col + (TableMap.build t).width) 0) ∧
        (col = 0 ∨
          (TableMap.build t).map.getD
              (((TableMap.build t).rowCount cellRel + c.attrs.rowspan - 1) *
                (TableMap.build t).width + col) 0 ≠
            (TableMap.build t).map.getD
              (((TableMap.build t).rowCount cellRel + c.attrs.rowspan - 1) *
                (TableMap.build t).width + col - 1) 0))) ∧
    decorationColRows exGrid 1 = [0, 2] ∧
    decorationRowCols exGrid 1 = [0, 2] ∧
    ((decorationColRows exGrid 1).filter
      (fun r => colMarkerOwner exGrid 1 r == 1)).length = 1 ∧
    ((decorationRowCols exGrid 1).filter
      (fun k => rowMarkerOwner exGrid 1 k == 1)).length = 1 := by
  refine ⟨?_, ?_, by decide, by decide, by decide, by decide⟩
  · unfold decorationColRows
    rw [hc]
    simp only [List.mem_filter, List.mem_range, colDecorationCond,
      Bool.and_eq_true, Bool.or_eq_true, beq_iff_eq, bne_iff_ne]
  · unfold decorationRowCols
    rw [hc]
    simp only [List.mem_filter, List.mem_range, rowDecorationCond,
      Bool.and_eq_true, Bool.or_eq_true, beq_iff_eq, bne_iff_ne]

/-- C5 witness: the column-branch emission of the three-by-three example at
its spanning cell, instantiated at rows one (deduplicated away) and column
zero. -/
theorem handleDecorations_dedup_witness :
    ((1 : Nat) ∈ decorationColRows exGrid 1 ↔
      1 < (TableMap.build exGrid).height ∧
        (((TableMap.build exGrid).colCount 1 + (mkCell 2 2 none).attrs.colspan =
            (TableMap.build exGrid).width ∨
          (TableMap.build exGrid).map.getD
              ((TableMap.build exGrid).colCount 1 + (mkCell 2 2 none).attrs.colspan +
                1 * (TableMap.build exGrid).width - 1) 0 ≠
            (TableMap.build exGrid).map.getD
              ((TableMap.build exGrid).colCount 1 + (mkCell 2 2 none).attrs.colspan +
                1 * (TableMap.build exGrid).width - 1 + 1) 0) ∧
        ((1 : Nat) = 0 ∨
          (TableMap.build exGrid).map.getD
              ((TableMap.build exGrid).colCount 1 + (mkCell 2 2 none).attrs.colspan +
                1 * (TableMap.build exGrid).width - 1) 0 ≠
            (TableMap.build exGrid).map.getD
              ((TableMap.build exGrid).colCount 1 + (mkCell 2 2 none).attrs.colspan +
                1 * (TableMap.build exGrid).width - 1 -
                (TableMap.build exGrid).width) 0))) ∧
    ((0 : Nat) ∈ decorationRowCols exGrid 1 ↔
      0 < (TableMap.build exGrid).width ∧
        (((TableMap.build exGrid).rowCount 1 + (mkCell 2 2 none).attrs.rowspan =
            (TableMap.build exGrid).height ∨
          (TableMap.build exGrid).map.getD
              (((TableMap.build exGrid).rowCount 1 + (mkCell 2 2 none).attrs.rowspan
                  - 1) * (TableMap.build exGrid).width + 0) 0 ≠
            (TableMap.build exGrid).map.getD
              (((TableMap.build exGrid).rowCount 1 + (mkCell 2 2 none).attrs.rowspan
                  - 1) * (TableMap.build exGrid).width + 0 +
                (TableMap.build exGrid).width) 0) ∧
        ((0 : Nat) = 0 ∨
          (TableMap.build exGrid).map.getD
              (((TableMap.build exGrid).rowCount 1 + (mkCell 2 2 none).attrs.rowspan
                  - 1) * (TableMap.build exGrid).width + 0) 0 ≠
            (TableMap.build exGrid).map.getD
              (((TableMap.build exGrid).rowCount 1 + (mkCell 2 2 none).attrs.rowspan
                  - 1) * (TableMap.build exGrid).width + 0 - 1) 0))) ∧
    decorationColRows exGrid 1 = [0, 2] ∧
    decorationRowCols exGrid 1 = [0, 2] ∧
    ((decorationColRows exGrid 1).filter
      (fun r => colMarkerOwner exGrid 1 r == 1)).length = 1 ∧
    ((decorationRowCols exGrid 1).filter
      (fun k => rowMarkerOwner exGrid 1 k == 1)).length = 1 :=
  handleDecorations_dedup exGrid 1 (mkCell 2 2 none) 1 0 (by decide)

/-- C9: for a row element with a well-formed comma-separated digit
data-rowheight attribute, getRowAttrs stores the raw attribute string
itself; it does not produce the number sequence that the colwidth parse of
the same string would produce, as the specification requires. -/
theorem getRowAttrs_stores_raw_string :
    getRowAttrs ⟨some ['6', '0', ',', '7', '0']⟩ = some ['6', '0', ',', '7', '0'] ∧
    parsedHeightList ['6', '0', ',', '7', '0'] = some [60, 70] ∧
    getRowAttrs ⟨some ['x']⟩ = none ∧
    getRowAttrs ⟨none⟩ = none := by
  refine ⟨?_, ?_, ?_, rfl⟩ <;> decide

end ProseMirrorTables
